import Mathlib

/-
Verification development for the Veil healthcare application.

Shallow embedding of the TypeScript sources:
  * src/lib/zkProofs.ts            (commitment scheme, mock ZK proofs, hex utilities)
  * src/app/api/appointments/route.ts   (appointment POST handler)
  * src/app/api/prescriptions route     (prescription GET merge and POST handler)
  * src/app/api/prescriptions/[id]/route.ts (blockchain prescription fetch)
  * DoctorForm onSubmit                 (doctor registration flow)

External library functions (ethers keccak256, the JS runtime clock, the ORM,
the JSON-RPC contract) are modelled as explicit parameters; pure library
helpers (UTF-8 encoding, JSON.stringify on the concrete object shapes,
parseInt) are implemented directly, following their documented semantics on
the inputs that occur in this code base.
-/

namespace Veil

/-! ## Bytes and hex strings (ethers.js byte and hex utilities)

Bytes are natural numbers below 256.  An ethers hex string is "0x" followed
by two lowercase hex digits per byte. -/

/-- Value of a single hex digit character, case insensitive; `none` when the
character is not a hex digit.  Character ranges are compared on code
points. -/
def hexDigitVal (c : Char) : Option Nat :=
  if 48 ≤ c.toNat ∧ c.toNat ≤ 57 then some (c.toNat - 48)
  else if 97 ≤ c.toNat ∧ c.toNat ≤ 102 then some (c.toNat - 97 + 10)
  else if 65 ≤ c.toNat ∧ c.toNat ≤ 70 then some (c.toNat - 65 + 10)
  else none

/-- Two lowercase hex digit characters of a byte (ethers.hexlify emits
lowercase).  Bytes are below 256 in every use in this code base. -/
def byteToHexChars (b : Nat) : List Char :=
  [Nat.digitChar (b / 16), Nat.digitChar (b % 16)]

/-- ethers.hexlify on a byte array: "0x" followed by two hex digits per
byte. -/
def hexlify (bs : List Nat) : String :=
  String.mk ('0' :: 'x' :: bs.flatMap byteToHexChars)

/-- Parse consecutive pairs of hex digit characters into bytes (a trailing
lone character is dropped, matching ethers on even-length well-formed
input, which is the only input that occurs here). -/
def hexPairsToBytes : List Char → List Nat
  | c1 :: c2 :: rest =>
      (16 * (hexDigitVal c1).getD 0 + (hexDigitVal c2).getD 0) :: hexPairsToBytes rest
  | _ => []

/-- ethers.getBytes on a hex string: strip the "0x" prefix and read byte
pairs. -/
def hexToBytes (s : String) : List Nat :=
  hexPairsToBytes (if s.toList.take 2 = ['0', 'x'] then s.toList.drop 2 else s.toList)

/-! ## UTF-8 encoding (ethers.toUtf8Bytes) -/

/-- UTF-8 encoding of one unicode scalar value. -/
def utf8EncodeChar (c : Char) : List Nat :=
  let n := c.toNat
  if n < 128 then [n]
  else if n < 2048 then [192 + n / 64, 128 + n % 64]
  else if n < 65536 then [224 + n / 4096, 128 + (n / 64) % 64, 128 + n % 64]
  else [240 + n / 262144, 128 + (n / 4096) % 64, 128 + (n / 64) % 64, 128 + n % 64]

/-- ethers.toUtf8Bytes: UTF-8 encoding of a string. -/
def toUtf8Bytes (s : String) : List Nat :=
  s.toList.flatMap utf8EncodeChar

/-! ## JSON.stringify on the prescription-data object shape -/

/-- JSON string escaping of one character, as JSON.stringify performs it. -/
def jsonEscapeChar (c : Char) : List Char :=
  if c = '"' then ['\\', '"']
  else if c = '\\' then ['\\', '\\']
  else if c = '\n' then ['\\', 'n']
  else if c = '\r' then ['\\', 'r']
  else if c = '\t' then ['\\', 't']
  else if c.toNat = 8 then ['\\', 'b']
  else if c.toNat = 12 then ['\\', 'f']
  else if c.toNat < 32 then
    ['\\', 'u', '0', '0', Nat.digitChar (c.toNat / 16), Nat.digitChar (c.toNat % 16)]
  else [c]

/-- JSON serialization of a string value, with quotes. -/
def jsonQuote (s : String) : String :=
  String.mk ('"' :: (s.toList.flatMap jsonEscapeChar ++ ['"']))

/-! ## src/lib/zkProofs.ts -/

/-- One medication entry of AnonymousPrescriptionData. -/
structure Medication where
  name : String
  dosage : String
  duration : String
  additionalInstructions : String
deriving DecidableEq, Repr

/-- AnonymousPrescriptionData from src/lib/zkProofs.ts. -/
structure AnonymousPrescriptionData where
  medications : List Medication
  diagnosis : String
  doctorId : String
  secretKey : String
deriving DecidableEq, Repr

/-- JSON.stringify of one medication object (JSON.stringify emits object
keys in property order). -/
def medicationJson (m : Medication) : String :=
  "\x7b\"name\":" ++ jsonQuote m.name ++
  ",\"dosage\":" ++ jsonQuote m.dosage ++
  ",\"duration\":" ++ jsonQuote m.duration ++
  ",\"additionalInstructions\":" ++ jsonQuote m.additionalInstructions ++ "\x7d"

/-- The dataString of generateCommitment: JSON.stringify of the object with
keys medications, diagnosis, doctorId, timestamp, where the timestamp is
Math.floor(Date.now() / 1000), passed here as the explicit clock value
nowSec. -/
def prescriptionDataJson (d : AnonymousPrescriptionData) (nowSec : Int) : String :=
  "\x7b\"medications\":[" ++ String.intercalate "," (d.medications.map medicationJson) ++
  "],\"diagnosis\":" ++ jsonQuote d.diagnosis ++
  ",\"doctorId\":" ++ jsonQuote d.doctorId ++
  ",\"timestamp\":" ++ toString nowSec ++ "\x7d"

/-- ethers.keccak256 applied to a byte array, returning a hex string.  The
keccak-f permutation itself is the abstract parameter K from bytes to
bytes. -/
def keccak256Bytes (K : List Nat → List Nat) (bs : List Nat) : String :=
  hexlify (K bs)

/-- ethers.keccak256 applied to a hex string (BytesLike). -/
def keccak256Hex (K : List Nat → List Nat) (s : String) : String :=
  hexlify (K (hexToBytes s))

/-- ethers.solidityPacked with types bytes32, bytes32: byte concatenation of
the two 32-byte values, rendered as a hex string. -/
def solidityPackedBytes32Pair (a b : String) : String :=
  hexlify (hexToBytes a ++ hexToBytes b)

/-- generateCommitment from src/lib/zkProofs.ts.  K is the keccak256 core;
nowSec is Math.floor(Date.now() / 1000), the clock read the function
performs. -/
def generateCommitment (K : List Nat → List Nat)
    (prescriptionData : AnonymousPrescriptionData) (nowSec : Int) : String :=
  let dataString := prescriptionDataJson prescriptionData nowSec
  let prescriptionHash := keccak256Bytes K (toUtf8Bytes dataString)
  keccak256Hex K
    (solidityPackedBytes32Pair prescriptionHash
      (keccak256Bytes K (toUtf8Bytes prescriptionData.secretKey)))

/-- The commitment formula as the specification states it:
H( H(medications, diagnosis, doctorId, timestamp) || H(secretKey) ), with H
the keccak256 hash, the inner hashes over the JSON serialization and the
secret key bytes, and || byte concatenation. -/
def commitmentSpecFormula (K : List Nat → List Nat)
    (d : AnonymousPrescriptionData) (nowSec : Int) : String :=
  hexlify (K (K (toUtf8Bytes (prescriptionDataJson d nowSec)) ++ K (toUtf8Bytes d.secretKey)))

/-- ZKProofData from src/lib/zkProofs.ts. -/
structure ZKProofData where
  a : String × String
  b : (String × String) × (String × String)
  c : String × String
  inputs : List String
deriving DecidableEq, Repr

/-- generateZKProof from src/lib/zkProofs.ts: returns the hardcoded mock
proof points together with the commitment of the input. -/
def generateZKProof (K : List Nat → List Nat)
    (prescriptionData : AnonymousPrescriptionData) (nowSec : Int) : ZKProofData :=
  { a := ("0x1234", "0x5678")
    b := (("0xabcd", "0xef01"), ("0x2345", "0x6789"))
    c := ("0x9abc", "0xdef0")
    inputs := [generateCommitment K prescriptionData nowSec] }

/-- verifyZKProof from src/lib/zkProofs.ts: mock verification, always
true. -/
def verifyZKProof (_proof : ZKProofData) : Bool :=
  true

/-- JS parseInt with radix 16 on a character list: value of the longest
prefix of hex digits, `none` (NaN) when there is no such prefix.  Sign and
whitespace handling of parseInt is omitted: the arguments in this code base
are slices of hex strings. -/
def parseIntHex (l : List Char) : Option Nat :=
  let ds := l.takeWhile (fun c => (hexDigitVal c).isSome)
  if ds.isEmpty then none
  else some (ds.foldl (fun a c => 16 * a + (hexDigitVal c).getD 0) 0)

/-- hexToU32Array from src/lib/zkProofs.ts: strip an optional "0x" prefix,
left-pad with zeros to 64 characters, and parse eight 8-character chunks.
`none` models the NaN that JS parseInt produces on a non-digit chunk. -/
def hexToU32Array (hex : String) : List (Option Nat) :=
  let cleanHex := if hex.toList.take 2 = ['0', 'x'] then hex.toList.drop 2 else hex.toList
  let paddedHex := List.replicate (64 - cleanHex.length) '0' ++ cleanHex
  (List.range 8).map fun k => parseIntHex ((paddedHex.drop (8 * k)).take 8)

/-- parseCommitmentForContract from src/lib/zkProofs.ts. -/
def parseCommitmentForContract (commitment : String) : List (Option Nat) :=
  hexToU32Array commitment

/-- Numeric value of a list of hex digit characters, big-endian. -/
def hexVal (l : List Char) : Nat :=
  l.foldl (fun a c => 16 * a + (hexDigitVal c).getD 0) 0

/-! ## Database records shared by the route handlers -/

/-- The authenticated session user (getCurrentUser). -/
structure User where
  id : String
deriving DecidableEq, Repr

/-- AppointmentStatus from the Prisma schema. -/
inductive ApptStatus
  | PENDING
  | CONFIRMED
  | CANCELED
deriving DecidableEq, Repr

/-- An Appointment row.  Times are millisecond instants (JS Date values). -/
structure Appointment where
  doctorId : String
  patientId : String
  startTime : Int
  endTime : Int
  status : ApptStatus
deriving DecidableEq, Repr

/-- A Patient row, restricted to the fields the handlers select. -/
structure PatientRec where
  id : String
  userId : String
  blockId : String
deriving DecidableEq, Repr

/-- A Doctor row, restricted to the fields the handlers select. -/
structure DoctorRec where
  id : String
  userId : String
  blockId : String
  verified : Bool
deriving DecidableEq, Repr

/-! ## src/app/api/appointments/route.ts, POST handler

The ORM is modelled by explicit lists of rows; findFirst and findUnique
become List.find? over them.  The req_access lookup and the user-role
update of the handler have no effect on the response or on the appointment
table and are omitted.  The freshly created patient row (its ORM-generated
id and the random placeholder blockId) enters as the parameter
newPatient. -/

/-- Database state visible to the appointments POST handler. -/
structure ApptDb where
  appointments : List Appointment
  patients : List PatientRec
  doctors : List DoctorRec
deriving DecidableEq, Repr

/-- Parsed appointment request body (appointmentSchema), with the datetime
strings already converted by `new Date` to millisecond instants. -/
structure ApptBody where
  doctorId : String
  startTime : Int
  endTime : Int
deriving DecidableEq, Repr

/-- Outcome of the appointments POST handler: HTTP status, the database
state after the request, and the created appointment when there is one. -/
structure ApptResult where
  status : Nat
  db : ApptDb
  created : Option Appointment
deriving Repr

/-- The where-clause of the conflicting-appointment findFirst: same doctor
or same patient, startTime ≤ requested endTime, endTime ≥ requested
startTime, status PENDING or CONFIRMED. -/
def overlapsConflict (doctorId patientId : String) (s e : Int) (a : Appointment) : Bool :=
  (a.doctorId == doctorId && decide (a.startTime ≤ e) && decide (a.endTime ≥ s) &&
    (a.status == ApptStatus.PENDING || a.status == ApptStatus.CONFIRMED)) ||
  (a.patientId == patientId && decide (a.startTime ≤ e) && decide (a.endTime ≥ s) &&
    (a.status == ApptStatus.PENDING || a.status == ApptStatus.CONFIRMED))

/-- The patient profile the handler works with: the first patient row of the
session user, or the freshly created row when none exists. -/
def resolvePatient (st : ApptDb) (u : User) (newPatient : PatientRec) : PatientRec :=
  match st.patients.find? (fun p => p.userId == u.id) with
  | some p => p
  | none => { newPatient with userId := u.id }

/-- POST of src/app/api/appointments/route.ts.  `parsed` is the outcome of
appointmentSchema.parse (a ZodError maps to the 400 response of the catch
block). -/
def appointmentsPOST (st : ApptDb) (user : Option User)
    (parsed : Except Unit ApptBody) (newPatient : PatientRec) : ApptResult :=
  match user with
  | none => ⟨401, st, none⟩
  | some u =>
    match parsed with
    | .error _ => ⟨400, st, none⟩
    | .ok body =>
      let patient := resolvePatient st u newPatient
      let st1 :=
        match st.patients.find? (fun p => p.userId == u.id) with
        | some _ => st
        | none => { st with patients := st.patients ++ [patient] }
      match st1.doctors.find? (fun d => d.id == body.doctorId) with
      | none => ⟨404, st1, none⟩
      | some _ =>
        match st1.appointments.find?
            (overlapsConflict body.doctorId patient.id body.startTime body.endTime) with
        | some _ => ⟨409, st1, none⟩
        | none =>
          let appt : Appointment :=
            ⟨body.doctorId, patient.id, body.startTime, body.endTime, ApptStatus.PENDING⟩
          ⟨200, { st1 with appointments := st1.appointments ++ [appt] }, some appt⟩

/-! ## Prescriptions POST handler (src/app/api/prescriptions route) -/

/-- One medication entry of the prescription request body
(prescriptionCreateSchema); additionalInstructions is optional. -/
structure MedicationBody where
  name : String
  dosage : String
  duration : String
  additionalInstructions : Option String
deriving DecidableEq, Repr

/-- Parsed prescription request body (prescriptionCreateSchema). -/
structure PrescriptionBody where
  patientId : String
  medications : List MedicationBody
  validTill : Option String
  blockchainTxHash : Option String
deriving DecidableEq, Repr

/-- A Medication row as created by the handler. -/
structure MedicationRow where
  name : String
  dosage : String
  duration : String
  additionalInstructions : String
deriving DecidableEq, Repr

/-- A Prescription row as created by the handler.  validTill is a
millisecond instant. -/
structure PrescriptionRow where
  id : String
  doctorId : String
  patientId : String
  validTill : Int
  medications : List MedicationRow
deriving DecidableEq, Repr

/-- Database state visible to the prescriptions POST handler. -/
structure PrescriptionDb where
  doctors : List DoctorRec
  prescriptions : List PrescriptionRow
deriving Repr

/-- Outcome of the prescriptions POST handler. -/
structure PrescriptionsPostResult where
  status : Nat
  prescriptions : List PrescriptionRow
  created : Option PrescriptionRow
deriving Repr

/-- POST of the prescriptions route.  nowMs is Date.now(); dateParse is the
JS Date constructor on the validated datetime string; newId is the
ORM-generated row id. -/
def prescriptionsPOST (st : PrescriptionDb) (user : Option User)
    (parsed : Except Unit PrescriptionBody) (nowMs : Int)
    (dateParse : String → Int) (newId : String) : PrescriptionsPostResult :=
  match user with
  | none => ⟨401, st.prescriptions, none⟩
  | some u =>
    match st.doctors.find? (fun d => d.userId == u.id) with
    | none => ⟨403, st.prescriptions, none⟩
    | some doctor =>
      match parsed with
      | .error _ => ⟨422, st.prescriptions, none⟩
      | .ok body =>
        let validTill : Int :=
          match body.validTill with
          | some s => dateParse s
          | none => nowMs + 30 * 24 * 60 * 60 * 1000
        let pr : PrescriptionRow :=
          { id := newId
            doctorId := doctor.id
            patientId := body.patientId
            validTill := validTill
            medications := body.medications.map fun med =>
              { name := med.name
                dosage := med.dosage
                duration := med.duration
                additionalInstructions := med.additionalInstructions.getD "" } }
        ⟨200, st.prescriptions ++ [pr], some pr⟩

/-! ## Prescriptions GET handler: merge of database and blockchain lists

Both role branches build a JS Map keyed by prescription id: first every
database record is inserted with Map.set, then every blockchain record is
inserted only when its id is not yet present; Array.from(map.values())
preserves insertion order.  The final list is sorted by issueDate,
most recent first.  JS Map is modelled as an association list with
insertion-order semantics; the Array.prototype.sort call is modelled by
insertion sort over the same comparator. -/

/-- The view of a prescription that the merge logic inspects. -/
structure PrescriptionView where
  id : String
  issueDate : Int
deriving DecidableEq, Repr

/-- JS Map.set: replace in place when the key exists, append otherwise. -/
def mapSet (m : List (String × PrescriptionView)) (k : String) (v : PrescriptionView) :
    List (String × PrescriptionView) :=
  if m.any (fun e => e.1 == k) then m.map (fun e => if e.1 == k then (k, v) else e)
  else m ++ [(k, v)]

/-- JS Map.has. -/
def mapHas (m : List (String × PrescriptionView)) (k : String) : Bool :=
  m.any (fun e => e.1 == k)

/-- The combined Map after both forEach loops: database records first, then
blockchain records only for ids not already present. -/
def combinedMap (dbPs chainPs : List PrescriptionView) : List (String × PrescriptionView) :=
  let afterDb := dbPs.foldl (fun m p => mapSet m p.id p) []
  chainPs.foldl (fun m p => if mapHas m p.id then m else mapSet m p.id p) afterDb

/-- The sort comparator (a, b) => dateB - dateA puts a before b exactly when
b.issueDate ≤ a.issueDate allows it: most recent first. -/
def byIssueDateDesc (a b : PrescriptionView) : Prop :=
  b.issueDate ≤ a.issueDate

instance : DecidableRel byIssueDateDesc :=
  fun a b => (inferInstance : Decidable (b.issueDate ≤ a.issueDate))

instance : IsTotal PrescriptionView byIssueDateDesc :=
  ⟨fun a b => le_total b.issueDate a.issueDate⟩

instance : IsTrans PrescriptionView byIssueDateDesc :=
  ⟨fun _ _ _ h1 h2 => le_trans h2 h1⟩

/-- Array.from(combined.values()) followed by the issueDate sort: the list
the GET handler returns. -/
def mergeAndSortPrescriptions (dbPs chainPs : List PrescriptionView) : List PrescriptionView :=
  List.insertionSort byIssueDateDesc ((combinedMap dbPs chainPs).map (fun e => e.2))

/-! ## src/app/api/prescriptions/[id]/route.ts, blockchain fetch -/

/-- Decimal digit value of a character. -/
def decDigitVal (c : Char) : Option Nat :=
  if 48 ≤ c.toNat ∧ c.toNat ≤ 57 then some (c.toNat - 48) else none

/-- JS parseInt with radix 10 on the prescription id string: value of the
longest prefix of decimal digits, `none` (NaN) otherwise.  Sign and
whitespace handling of parseInt is omitted. -/
def parseIntDec (s : String) : Option Nat :=
  let ds := s.toList.takeWhile (fun c => (decDigitVal c).isSome)
  if ds.isEmpty then none
  else some (ds.foldl (fun a c => 10 * a + (decDigitVal c).getD 0) 0)

/-- A prescription struct of the Medical contract.  issueDate is in seconds
since the epoch. -/
structure ChainPrescription where
  id : Nat
  issueDate : Int
  doctorAddress : String
  patientAddress : String
deriving DecidableEq, Repr

/-- Name and speciality of a doctor or patient struct of the contract. -/
structure ChainPartyInfo where
  name : String
  speciality : String
deriving DecidableEq, Repr

/-- The record fetchPrescriptionFromBlockchain returns.  issueDate and
validTill are millisecond instants; the source renders them with
Date.prototype.toISOString, an injective order-preserving rendering that
this model omits. -/
structure PrescriptionDetails where
  id : String
  issueDate : Int
  validTill : Int
  notes : String
  patientName : String
  doctorName : String
  specialization : String
  licenseNumber : String
  medications : List MedicationRow
  blockchainOnly : Bool
deriving DecidableEq, Repr

/-- fetchPrescriptionFromBlockchain from the [id] route.  The contract
reads enter as the function parameters chainPrescriptions, chainDoctors and
chainPatients; a read that throws is a `none` of chainPrescriptions (the
catch block returns null). -/
def fetchPrescriptionFromBlockchain
    (chainPrescriptions : Nat → Option ChainPrescription)
    (chainDoctors chainPatients : String → ChainPartyInfo)
    (prescriptionId : String) (userAddress : Option String) : Option PrescriptionDetails :=
  match parseIntDec prescriptionId with
  | none => none
  | some blockchainId =>
    match chainPrescriptions blockchainId with
    | none => none
    | some pd =>
      if pd.id = 0 then none
      else
        let doctorInfo := chainDoctors pd.doctorAddress
        let patientInfo := chainPatients pd.patientAddress
        let accessOk :=
          match userAddress with
          | some ua =>
              pd.doctorAddress.toLower == ua.toLower || pd.patientAddress.toLower == ua.toLower
          | none => true
        if accessOk then
          some
            { id := toString pd.id
              issueDate := pd.issueDate * 1000
              validTill := pd.issueDate * 1000 + 30 * 24 * 60 * 60 * 1000
              notes := ""
              patientName := if patientInfo.name == "" then "Unknown Patient" else patientInfo.name
              doctorName := if doctorInfo.name == "" then "Unknown Doctor" else doctorInfo.name
              specialization := doctorInfo.speciality
              licenseNumber := ""
              medications := []
              blockchainOnly := true }
        else none

/-! ## DoctorForm onSubmit (doctor registration flow)

The flow first calls contract.registerDoctor, then posts to
/api/users/doctor.  Outcomes of the two external calls enter as parameters;
the observable behaviour is the ordered list of performed actions and the
final content of the two stores. -/

/-- Toast variant shown to the user. -/
inductive ToastVariant
  | success
  | destructive
deriving DecidableEq, Repr

/-- Observable actions of the registration flow. -/
inductive RegAction
  | chainRegisterDoctor
  | dbRegisterDoctor
  | toast (variant : ToastVariant)
  | pushRoute (route : String)
deriving DecidableEq, Repr

/-- Outcome of the contract.registerDoctor call. -/
inductive ChainOutcome
  | success
  | failAlreadyRegistered
  | failOther
deriving DecidableEq, Repr

/-- Outcome of the axios POST to /api/users/doctor: resolves with status
200, resolves with another 2xx status, or rejects (axios rejects on any
non-2xx response and on network failure). -/
inductive DbOutcome
  | ok200
  | okOther
  | errThrow
deriving DecidableEq, Repr

/-- Whether each of the two stores holds the doctor registration. -/
structure RegStores where
  chainRegistered : Bool
  dbRegistered : Bool
deriving DecidableEq, Repr

/-- onSubmit of DoctorForm.  `pre` is the content of the stores before the
submission.  An axios rejection carries no data.message, so the
already-registered catch branch is only reached for the chain error. -/
def doctorFormOnSubmit (pre : RegStores) (chainOutcome : ChainOutcome)
    (dbOutcome : DbOutcome) : List RegAction × RegStores :=
  match chainOutcome with
  | .success =>
    let afterChain : RegStores := { pre with chainRegistered := true }
    match dbOutcome with
    | .ok200 =>
        ([.chainRegisterDoctor, .dbRegisterDoctor, .toast .success, .pushRoute "/doctor"],
         { afterChain with dbRegistered := true })
    | .okOther =>
        ([.chainRegisterDoctor, .dbRegisterDoctor, .toast .destructive], afterChain)
    | .errThrow =>
        ([.chainRegisterDoctor, .dbRegisterDoctor, .toast .destructive], afterChain)
  | .failAlreadyRegistered =>
    match dbOutcome with
    | .ok200 =>
        ([.chainRegisterDoctor, .dbRegisterDoctor, .toast .success, .pushRoute "/doctor"],
         { pre with dbRegistered := true })
    | .okOther =>
        ([.chainRegisterDoctor, .dbRegisterDoctor, .toast .destructive], pre)
    | .errThrow =>
        ([.chainRegisterDoctor, .dbRegisterDoctor, .toast .destructive], pre)
  | .failOther =>
    ([.chainRegisterDoctor, .toast .destructive], pre)

/-! ## Concrete instances used by the witness theorems -/

/-- A concrete stand-in for the keccak256 core: the byte sum modulo 256,
as a one-byte digest. -/
def sumHash (bs : List Nat) : List Nat :=
  [bs.foldl (fun a b => a + b) 0 % 256]

/-- Prescription data with empty fields. -/
def emptyPrescriptionData : AnonymousPrescriptionData :=
  { medications := [], diagnosis := "", doctorId := "", secretKey := "" }

/-- A session user. -/
def exUser : User := ⟨"u1"⟩

/-- A doctor row belonging to exUser. -/
def exDoctor : DoctorRec := ⟨"doc1", "u1", "0xd0c", true⟩

/-- A patient row belonging to exUser. -/
def exPatient : PatientRec := ⟨"pat1", "u1", "0xabc"⟩

/-- A fresh patient row for the create-on-demand branch. -/
def exNewPatient : PatientRec := ⟨"patNew", "", "0xfff"⟩

/-- An appointment request for exDoctor from 100 to 200. -/
def exApptBody : ApptBody := ⟨"doc1", 100, 200⟩

/-- A pending appointment of exDoctor overlapping exApptBody. -/
def exConflicting : Appointment := ⟨"doc1", "patX", 150, 250, ApptStatus.PENDING⟩

/-- Appointment database holding the conflicting appointment. -/
def exApptDb : ApptDb :=
  { appointments := [exConflicting], patients := [exPatient], doctors := [exDoctor] }

/-- A prescription request body without validTill. -/
def exPrescriptionBody : PrescriptionBody :=
  { patientId := "pat1", medications := [], validTill := none, blockchainTxHash := none }

/-- Prescription database holding exDoctor. -/
def exPrescriptionDb : PrescriptionDb := { doctors := [exDoctor], prescriptions := [] }

/-- Prescription database with no doctors. -/
def exEmptyPrescriptionDb : PrescriptionDb := { doctors := [], prescriptions := [] }

/-- A prescription struct stored on chain. -/
def exChainPrescription : ChainPrescription :=
  { id := 7, issueDate := 1000, doctorAddress := "0xD", patientAddress := "0xP" }

/-- A chain store holding exChainPrescription at id 7. -/
def exChain : Nat → Option ChainPrescription :=
  fun n => if n = 7 then some exChainPrescription else none

/-- A chain party store with empty names. -/
def exParty : String → ChainPartyInfo := fun _ => ⟨"", ""⟩

/-- Appointment database without any conflicting appointment. -/
def exApptDbNoConflict : ApptDb :=
  { appointments := [], patients := [exPatient], doctors := [exDoctor] }

/-- The prescription row created from exPrescriptionBody at time 0. -/
def exCreatedPrescription : PrescriptionRow :=
  { id := "p1", doctorId := "doc1", patientId := "pat1",
    validTill := 2592000000, medications := [] }

/-- The appointment created from exApptBody in exApptDbNoConflict. -/
def exCreatedAppointment : Appointment :=
  ⟨"doc1", "pat1", 100, 200, ApptStatus.PENDING⟩

/-- The details fetched from exChain for prescription id 7. -/
def exFetchedPrescription : PrescriptionDetails :=
  { id := "7", issueDate := 1000000, validTill := 2593000000, notes := ""
    patientName := "Unknown Patient", doctorName := "Unknown Doctor"
    specialization := "", licenseNumber := "", medications := [], blockchainOnly := true }

/-- A database prescription view. -/
def exView1 : PrescriptionView := ⟨"a", 5⟩

/-- A blockchain prescription view with the same id as exView1. -/
def exView2 : PrescriptionView := ⟨"a", 9⟩

/-- A blockchain prescription view with a fresh id. -/
def exView3 : PrescriptionView := ⟨"b", 9⟩

/-! ## Theorems -/

/-- Each hex digit below 16 round-trips through Nat.digitChar. -/
theorem hexDigitVal_digitChar {d : Nat} (hd : d < 16) :
    hexDigitVal (Nat.digitChar d) = some d := by
  interval_cases d <;> decide

/-- Parsing the two hex characters of a byte below 256 recovers the byte. -/
theorem hexPairsToBytes_byteToHexChars {b : Nat} (hb : b < 256) (rest : List Char) :
    hexPairsToBytes (byteToHexChars b ++ rest) = b :: hexPairsToBytes rest := by
  have h1 : b / 16 < 16 := by omega
  have h2 : b % 16 < 16 := Nat.mod_lt _ (by omega)
  have hb2 : 16 * (b / 16) + b % 16 = b := by omega
  simp only [byteToHexChars, List.append_eq, List.cons_append, List.nil_append,
    hexPairsToBytes, hexDigitVal_digitChar h1, hexDigitVal_digitChar h2,
    Option.getD_some, hb2]

/-- Parsing the hex rendering of a byte list recovers the list. -/
theorem hexPairsToBytes_flatMap {bs : List Nat} (h : ∀ b ∈ bs, b < 256) :
    hexPairsToBytes (bs.flatMap byteToHexChars) = bs := by
  induction bs with
  | nil => rfl
  | cons b t ih =>
    rw [List.flatMap_cons, hexPairsToBytes_byteToHexChars (h b (by simp)),
      ih (fun x hx => h x (by simp [hx]))]

/-- hexToBytes is a left inverse of hexlify on byte lists. -/
theorem hexToBytes_hexlify {bs : List Nat} (h : ∀ b ∈ bs, b < 256) :
    hexToBytes (hexlify bs) = bs := by
  have htl : (hexlify bs).toList = '0' :: 'x' :: bs.flatMap byteToHexChars := rfl
  simp only [hexToBytes, htl, List.take_succ_cons, List.take_zero, List.drop_succ_cons,
    List.drop_zero, if_pos rfl]
  exact hexPairsToBytes_flatMap h

/-- Claim C1: for every anonymous-prescription input, generateCommitment
returns H( H(medications, diagnosis, doctorId, timestamp) || H(secretKey) ):
the keccak256 hash of the byte concatenation of the keccak256 hash of the
JSON serialization of the medications, diagnosis, doctorId and timestamp
with the keccak256 hash of the secretKey.  K is the keccak256 core, assumed
to emit bytes. -/
theorem generateCommitment_eq_specFormula (K : List Nat → List Nat)
    (hK : ∀ bs, ∀ b ∈ K bs, b < 256)
    (d : AnonymousPrescriptionData) (nowSec : Int) :
    generateCommitment K d nowSec = commitmentSpecFormula K d nowSec := by
  simp only [generateCommitment, commitmentSpecFormula, keccak256Hex, keccak256Bytes,
    solidityPackedBytes32Pair]
  rw [hexToBytes_hexlify (hK _), hexToBytes_hexlify (hK _), hexToBytes_hexlify]
  intro b hb
  rcases List.mem_append.1 hb with h | h
  · exact hK _ b h
  · exact hK _ b h

/-- Witness for C1 at the sumHash core and empty prescription data. -/
theorem generateCommitment_eq_specFormula_witness :
    generateCommitment sumHash emptyPrescriptionData 0 =
      commitmentSpecFormula sumHash emptyPrescriptionData 0 :=
  generateCommitment_eq_specFormula sumHash
    (fun bs b hb => by
      simp only [sumHash, List.mem_singleton] at hb
      omega)
    emptyPrescriptionData 0

/-- Claim C2 (code bug): generateCommitment is not a deterministic function
of its prescription-data argument, because it hashes the clock second
Math.floor(Date.now() / 1000) into the payload.  The same input hashed at
clock seconds 0 and 1 yields different commitments, so recomputing the hash
later from the disclosed secretKey cannot reproduce the stored commitment,
contradicting the stated verification scheme and the code comment that the
hash of the prescription data is deterministic. -/
theorem generateCommitment_differs_across_time :
    generateCommitment sumHash emptyPrescriptionData 0 ≠
      generateCommitment sumHash emptyPrescriptionData 1 := by
  decide

/-- Claim C3: the zero-knowledge proof machinery is a mock: the a, b, c
proof components are fixed hardcoded constants independent of the input,
the inputs array is exactly the commitment of the input, and verifyZKProof
returns true for every proof. -/
theorem zkProof_machinery_is_mock (K : List Nat → List Nat)
    (d : AnonymousPrescriptionData) (nowSec : Int) :
    (generateZKProof K d nowSec).a = ("0x1234", "0x5678") ∧
    (generateZKProof K d nowSec).b = (("0xabcd", "0xef01"), ("0x2345", "0x6789")) ∧
    (generateZKProof K d nowSec).c = ("0x9abc", "0xdef0") ∧
    (generateZKProof K d nowSec).inputs = [generateCommitment K d nowSec] ∧
    (∀ proof : ZKProofData, verifyZKProof proof = true) :=
  ⟨rfl, rfl, rfl, rfl, fun _ => rfl⟩

/-- Claim C5: in the doctor registration flow there is no compensating
transaction between the blockchain write and the database write: starting
from unregistered stores, when the on-chain registerDoctor call succeeds
and the subsequent database registration fails, the flow ends with a
failure toast after exactly one blockchain write (no revert, no retry),
leaving the chain store registered and the database store not. -/
theorem doctorFormOnSubmit_no_compensation (dbOutcome : DbOutcome)
    (h : dbOutcome ≠ DbOutcome.ok200) :
    (doctorFormOnSubmit ⟨false, false⟩ ChainOutcome.success dbOutcome).2.chainRegistered
        = true ∧
    (doctorFormOnSubmit ⟨false, false⟩ ChainOutcome.success dbOutcome).2.dbRegistered
        = false ∧
    (doctorFormOnSubmit ⟨false, false⟩ ChainOutcome.success dbOutcome).1.count
        RegAction.chainRegisterDoctor = 1 ∧
    (doctorFormOnSubmit ⟨false, false⟩ ChainOutcome.success dbOutcome).1.getLast?
        = some (RegAction.toast ToastVariant.destructive) := by
  cases dbOutcome with
  | ok200 => exact absurd rfl h
  | okOther => exact ⟨rfl, rfl, by decide, by decide⟩
  | errThrow => exact ⟨rfl, rfl, by decide, by decide⟩

/-- Witness for C5 at the rejected database call. -/
theorem doctorFormOnSubmit_no_compensation_witness :
    DbOutcome.errThrow ≠ DbOutcome.ok200 ∧
    ((doctorFormOnSubmit ⟨false, false⟩ ChainOutcome.success DbOutcome.errThrow).2.chainRegistered
        = true ∧
     (doctorFormOnSubmit ⟨false, false⟩ ChainOutcome.success DbOutcome.errThrow).2.dbRegistered
        = false ∧
     (doctorFormOnSubmit ⟨false, false⟩ ChainOutcome.success DbOutcome.errThrow).1.count
        RegAction.chainRegisterDoctor = 1 ∧
     (doctorFormOnSubmit ⟨false, false⟩ ChainOutcome.success DbOutcome.errThrow).1.getLast?
        = some (RegAction.toast ToastVariant.destructive)) :=
  ⟨by decide, doctorFormOnSubmit_no_compensation DbOutcome.errThrow (by decide)⟩

/-- Claim C6: for POST /api/prescriptions, a request without an
authenticated user yields status 401; an authenticated user without a
doctor profile yields 403 with no prescription created; a doctor whose
request body fails schema validation yields 422 with no prescription
created. -/
theorem prescriptionsPOST_status_codes
    (st : PrescriptionDb) (parsed : Except Unit PrescriptionBody) (nowMs : Int)
    (dateParse : String → Int) (newId : String) (u : User) :
    (prescriptionsPOST st none parsed nowMs dateParse newId).status = 401 ∧
    (st.doctors.find? (fun d => d.userId == u.id) = none →
      (prescriptionsPOST st (some u) parsed nowMs dateParse newId).status = 403 ∧
      (prescriptionsPOST st (some u) parsed nowMs dateParse newId).created = none ∧
      (prescriptionsPOST st (some u) parsed nowMs dateParse newId).prescriptions
        = st.prescriptions) ∧
    (∀ doctor, st.doctors.find? (fun d => d.userId == u.id) = some doctor →
      ∀ e : Unit, parsed = Except.error e →
        (prescriptionsPOST st (some u) parsed nowMs dateParse newId).status = 422 ∧
        (prescriptionsPOST st (some u) parsed nowMs dateParse newId).created = none ∧
        (prescriptionsPOST st (some u) parsed nowMs dateParse newId).prescriptions
          = st.prescriptions) := by
  refine ⟨rfl, fun hd => ?_, fun doctor hd e hp => ?_⟩
  · simp [prescriptionsPOST, hd]
  · subst hp
    simp [prescriptionsPOST, hd]

/-- Witness for C6: the three branches at concrete databases. -/
theorem prescriptionsPOST_status_codes_witness :
    (prescriptionsPOST exEmptyPrescriptionDb none (Except.ok exPrescriptionBody) 0
        (fun _ => 0) "p1").status = 401 ∧
    ((prescriptionsPOST exEmptyPrescriptionDb (some exUser) (Except.ok exPrescriptionBody) 0
        (fun _ => 0) "p1").status = 403 ∧
      (prescriptionsPOST exEmptyPrescriptionDb (some exUser) (Except.ok exPrescriptionBody) 0
        (fun _ => 0) "p1").created = none ∧
      (prescriptionsPOST exEmptyPrescriptionDb (some exUser) (Except.ok exPrescriptionBody) 0
        (fun _ => 0) "p1").prescriptions = exEmptyPrescriptionDb.prescriptions) ∧
    ((prescriptionsPOST exPrescriptionDb (some exUser) (Except.error ()) 0
        (fun _ => 0) "p1").status = 422 ∧
      (prescriptionsPOST exPrescriptionDb (some exUser) (Except.error ()) 0
        (fun _ => 0) "p1").created = none ∧
      (prescriptionsPOST exPrescriptionDb (some exUser) (Except.error ()) 0
        (fun _ => 0) "p1").prescriptions = exPrescriptionDb.prescriptions) :=
  ⟨(prescriptionsPOST_status_codes exEmptyPrescriptionDb (Except.ok exPrescriptionBody) 0
      (fun _ => 0) "p1" exUser).1,
   (prescriptionsPOST_status_codes exEmptyPrescriptionDb (Except.ok exPrescriptionBody) 0
      (fun _ => 0) "p1" exUser).2.1 (by decide),
   (prescriptionsPOST_status_codes exPrescriptionDb (Except.error ()) 0
      (fun _ => 0) "p1" exUser).2.2 exDoctor (by decide) () rfl⟩

/-- Claim C7: a prescription created by POST /api/prescriptions has
doctorId equal to the authenticated doctor profile id and patientId equal
to the request body patientId; an appointment created by
POST /api/appointments references exactly the requested doctor and the
resolved patient of the session user. -/
theorem created_records_reference_one_doctor_one_patient
    (stp : PrescriptionDb) (u : User) (body : PrescriptionBody) (nowMs : Int)
    (dateParse : String → Int) (newId : String) (doctor : DoctorRec)
    (hd : stp.doctors.find? (fun d => d.userId == u.id) = some doctor)
    (sta : ApptDb) (ua : User) (abody : ApptBody) (np : PatientRec) :
    (∀ pr, (prescriptionsPOST stp (some u) (Except.ok body) nowMs dateParse newId).created
        = some pr → pr.doctorId = doctor.id ∧ pr.patientId = body.patientId) ∧
    (∀ ap, (appointmentsPOST sta (some ua) (Except.ok abody) np).created = some ap →
        ap.doctorId = abody.doctorId ∧ ap.patientId = (resolvePatient sta ua np).id) := by
  constructor
  · intro pr hpr
    simp only [prescriptionsPOST, hd, Option.some.injEq] at hpr
    subst hpr
    exact ⟨rfl, rfl⟩
  · intro ap hap
    simp only [appointmentsPOST] at hap
    rcases hfp : sta.patients.find? (fun p => p.userId == ua.id) with _ | p
    all_goals try simp only [hfp] at hap
    all_goals rcases hfd : sta.doctors.find? (fun d => d.id == abody.doctorId) with _ | dd
    all_goals try simp only [hfd] at hap
    all_goals rcases hfc : sta.appointments.find? (overlapsConflict abody.doctorId
      (resolvePatient sta ua np).id abody.startTime abody.endTime) with _ | cc
    all_goals try simp only [hfc] at hap
    all_goals try (simp only [Option.some.injEq] at hap; subst hap; exact ⟨rfl, rfl⟩)
    all_goals exact absurd hap (by simp)

/-- Witness for C7: the records created at concrete databases carry the
expected doctor and patient references. -/
theorem created_records_reference_one_doctor_one_patient_witness :
    exCreatedPrescription.doctorId = exDoctor.id ∧
    exCreatedPrescription.patientId = exPrescriptionBody.patientId ∧
    exCreatedAppointment.doctorId = exApptBody.doctorId ∧
    exCreatedAppointment.patientId = (resolvePatient exApptDbNoConflict exUser exNewPatient).id :=
  ⟨((created_records_reference_one_doctor_one_patient exPrescriptionDb exUser
      exPrescriptionBody 0 (fun _ => 0) "p1" exDoctor (by decide) exApptDbNoConflict exUser
      exApptBody exNewPatient).1 exCreatedPrescription (by decide)).1,
   ((created_records_reference_one_doctor_one_patient exPrescriptionDb exUser
      exPrescriptionBody 0 (fun _ => 0) "p1" exDoctor (by decide) exApptDbNoConflict exUser
      exApptBody exNewPatient).1 exCreatedPrescription (by decide)).2,
   ((created_records_reference_one_doctor_one_patient exPrescriptionDb exUser
      exPrescriptionBody 0 (fun _ => 0) "p1" exDoctor (by decide) exApptDbNoConflict exUser
      exApptBody exNewPatient).2 exCreatedAppointment (by decide)).1,
   ((created_records_reference_one_doctor_one_patient exPrescriptionDb exUser
      exPrescriptionBody 0 (fun _ => 0) "p1" exDoctor (by decide) exApptDbNoConflict exUser
      exApptBody exNewPatient).2 exCreatedAppointment (by decide)).2⟩

/-- Claim C4: for an authenticated POST /api/appointments with a valid body
and an existing doctor, when an existing appointment of that doctor or of
the requesting patient has status PENDING or CONFIRMED and a time range
overlapping the requested range (startTime ≤ requested endTime and endTime
≥ requested startTime), the handler responds with status 409 and creates no
appointment. -/
theorem appointmentsPOST_conflict_409
    (st : ApptDb) (u : User) (body : ApptBody) (np : PatientRec) (doctor : DoctorRec)
    (hdoc : doctor ∈ st.doctors) (hdid : doctor.id = body.doctorId)
    (a : Appointment) (ha : a ∈ st.appointments)
    (hconf : overlapsConflict body.doctorId (resolvePatient st u np).id body.startTime
      body.endTime a = true) :
    (appointmentsPOST st (some u) (Except.ok body) np).status = 409 ∧
    (appointmentsPOST st (some u) (Except.ok body) np).created = none ∧
    (appointmentsPOST st (some u) (Except.ok body) np).db.appointments = st.appointments := by
  have hd2e : (st.doctors.find? (fun d => d.id == body.doctorId)).isSome :=
    List.find?_isSome.mpr ⟨doctor, hdoc, by simp [hdid]⟩
  obtain ⟨d2, hd2⟩ := Option.isSome_iff_exists.mp hd2e
  have ha2e : (st.appointments.find? (overlapsConflict body.doctorId
      (resolvePatient st u np).id body.startTime body.endTime)).isSome :=
    List.find?_isSome.mpr ⟨a, ha, hconf⟩
  obtain ⟨a2, ha2⟩ := Option.isSome_iff_exists.mp ha2e
  rcases hfp : st.patients.find? (fun p => p.userId == u.id) with _ | p <;>
    simp [appointmentsPOST, hfp, hd2, ha2]

/-- Witness for C4 at a database holding one overlapping pending
appointment of the requested doctor. -/
theorem appointmentsPOST_conflict_409_witness :
    (appointmentsPOST exApptDb (some exUser) (Except.ok exApptBody) exNewPatient).status
        = 409 ∧
    (appointmentsPOST exApptDb (some exUser) (Except.ok exApptBody) exNewPatient).created
        = none ∧
    (appointmentsPOST exApptDb (some exUser) (Except.ok exApptBody)
        exNewPatient).db.appointments = exApptDb.appointments :=
  appointmentsPOST_conflict_409 exApptDb exUser exApptBody exNewPatient exDoctor
    (by decide) (by decide) exConflicting (by decide) (by decide)

/-- Claim C10: a prescription created via POST /api/prescriptions without a
validTill field in the body receives validTill exactly 30 days
(30 * 24 * 60 * 60 * 1000 milliseconds) after the creation time, and every
prescription fetched from the blockchain has validTill equal to its
issueDate plus exactly 30 days. -/
theorem prescription_validTill_defaults
    (st : PrescriptionDb) (u : User) (body : PrescriptionBody) (nowMs : Int)
    (dateParse : String → Int) (newId : String) (doctor : DoctorRec)
    (hd : st.doctors.find? (fun d => d.userId == u.id) = some doctor)
    (hv : body.validTill = none)
    (chainPrescriptions : Nat → Option ChainPrescription)
    (chainDoctors chainPatients : String → ChainPartyInfo)
    (pid : String) (ua : Option String) :
    (∀ pr, (prescriptionsPOST st (some u) (Except.ok body) nowMs dateParse newId).created
        = some pr → pr.validTill = nowMs + 30 * 24 * 60 * 60 * 1000) ∧
    (∀ r, fetchPrescriptionFromBlockchain chainPrescriptions chainDoctors chainPatients
        pid ua = some r → r.validTill = r.issueDate + 30 * 24 * 60 * 60 * 1000) := by
  constructor
  · intro pr hpr
    simp only [prescriptionsPOST, hd, hv, Option.some.injEq] at hpr
    subst hpr
    rfl
  · intro r hr
    simp only [fetchPrescriptionFromBlockchain] at hr
    split at hr
    · exact absurd hr (by simp)
    · split at hr
      · exact absurd hr (by simp)
      · split at hr
        · exact absurd hr (by simp)
        · split at hr
          · simp only [Option.some.injEq] at hr
            subst hr
            rfl
          · exact absurd hr (by simp)

/-- Witness for C10 at a concrete creation and a concrete chain fetch. -/
theorem prescription_validTill_defaults_witness :
    exCreatedPrescription.validTill = 0 + 30 * 24 * 60 * 60 * 1000 ∧
    exFetchedPrescription.validTill = exFetchedPrescription.issueDate
        + 30 * 24 * 60 * 60 * 1000 :=
  ⟨(prescription_validTill_defaults exPrescriptionDb exUser exPrescriptionBody 0
      (fun _ => 0) "p1" exDoctor (by decide) rfl exChain exParty exParty "7" none).1
      exCreatedPrescription (by decide),
   (prescription_validTill_defaults exPrescriptionDb exUser exPrescriptionBody 0
      (fun _ => 0) "p1" exDoctor (by decide) rfl exChain exParty exParty "7" none).2
      exFetchedPrescription (by decide)⟩

/-- Every hex digit value is below 16. -/
theorem hexDigitVal_getD_lt (c : Char) : (hexDigitVal c).getD 0 < 16 := by
  unfold hexDigitVal
  split
  · next h => simp only [Option.getD_some]; omega
  · split
    · next h => simp only [Option.getD_some]; omega
    · split
      · next h => simp only [Option.getD_some]; omega
      · simp

/-- Folding hex digits from an accumulator splits into the accumulator part
and the value of the digits. -/
theorem foldl_hexVal (a : Nat) (l : List Char) :
    l.foldl (fun x c => 16 * x + (hexDigitVal c).getD 0) a
      = a * 16 ^ l.length + hexVal l := by
  induction l generalizing a with
  | nil => simp [hexVal]
  | cons c t ih =>
    have h0 : hexVal (c :: t)
        = t.foldl (fun x c => 16 * x + (hexDigitVal c).getD 0)
            (16 * 0 + (hexDigitVal c).getD 0) := rfl
    simp only [List.foldl_cons, List.length_cons]
    rw [ih, h0, ih]
    ring

/-- Big-endian value of the head digit and the tail. -/
theorem hexVal_cons (c : Char) (t : List Char) :
    hexVal (c :: t) = (hexDigitVal c).getD 0 * 16 ^ t.length + hexVal t := by
  have h0 : hexVal (c :: t)
      = t.foldl (fun x c => 16 * x + (hexDigitVal c).getD 0)
          (16 * 0 + (hexDigitVal c).getD 0) := rfl
  rw [h0, foldl_hexVal]
  ring

/-- The value of an appended digit list. -/
theorem hexVal_append (x y : List Char) :
    hexVal (x ++ y) = hexVal x * 16 ^ y.length + hexVal y := by
  unfold hexVal
  rw [List.foldl_append]
  exact foldl_hexVal _ y

/-- The value of a digit list is below 16 to its length. -/
theorem hexVal_lt (l : List Char) : hexVal l < 16 ^ l.length := by
  induction l with
  | nil => simp [hexVal]
  | cons c t ih =>
    rw [hexVal_cons, List.length_cons, pow_succ]
    have hc := hexDigitVal_getD_lt c
    nlinarith [pow_pos (show 0 < 16 by norm_num) t.length]

/-- parseIntHex on a nonempty list of hex digits returns its value. -/
theorem parseIntHex_all_hex {l : List Char} (hne : l ≠ [])
    (h : ∀ c ∈ l, (hexDigitVal c).isSome = true) :
    parseIntHex l = some (hexVal l) := by
  have hie : l.isEmpty = false := by
    rcases l with _ | ⟨c, t⟩
    · exact absurd rfl hne
    · rfl
  simp [parseIntHex, List.takeWhile_eq_self_iff.mpr h, hie, hexVal]

/-- Recombining the values of the eight-digit chunks of a digit list in base
2 to the 32 recovers the value of the whole list. -/
theorem chunksFold (n : Nat) (l : List Char) (a : Nat) (hl : l.length = 8 * n) :
    ((List.range n).map (fun k => hexVal ((l.drop (8 * k)).take 8))).foldl
        (fun x v => x * 2 ^ 32 + v) a
      = a * 2 ^ (32 * n) + hexVal l := by
  induction n generalizing l a with
  | zero =>
    have hnil : l = [] := List.length_eq_zero.mp (by omega)
    subst hnil
    simp [hexVal]
  | succ n ih =>
    rw [List.range_succ_eq_map]
    simp only [List.map_cons, List.map_map, List.foldl_cons, Nat.mul_zero, List.drop_zero]
    have hmap : (List.range n).map
          ((fun k => hexVal ((l.drop (8 * k)).take 8)) ∘ Nat.succ)
        = (List.range n).map (fun k => hexVal (((l.drop 8).drop (8 * k)).take 8)) := by
      apply List.map_congr_left
      intro k _
      simp only [Function.comp_apply]
      rw [List.drop_drop]
      have : 8 * Nat.succ k = 8 + 8 * k := by omega
      rw [this]
    rw [hmap, ih (l.drop 8) _ (by rw [List.length_drop, hl]; omega)]
    have hsplit : hexVal l = hexVal (l.take 8) * 16 ^ (l.drop 8).length
        + hexVal (l.drop 8) := by
      conv_lhs => rw [← List.take_append_drop 8 l]
      exact hexVal_append _ _
    rw [hsplit, List.length_drop, hl]
    have h16 : (16 : Nat) ^ (8 * (n + 1) - 8) = 2 ^ (32 * n) := by
      have h1 : 8 * (n + 1) - 8 = 8 * n := by omega
      rw [h1, show (16 : Nat) = 2 ^ 4 from rfl, ← pow_mul]
      congr 1
      omega
    rw [h16]
    have h2 : (2 : Nat) ^ (32 * (n + 1)) = 2 ^ (32 * n) * 2 ^ 32 := by
      rw [← pow_add]
      congr 1
    rw [h2]
    ring

/-- Claim C8: for every hex string with at most 64 hexadecimal digits after
an optional 0x prefix, hexToU32Array returns exactly 8 parsed integers,
each below 2 to the 32, whose big-endian recombination in base 2 to the 32
equals the value of the input left-padded with zeros to 64 digits (the
numeric form of concatenating the 8 values as 8-hex-digit chunks); and
parseCommitmentForContract equals hexToU32Array on every commitment. -/
theorem hexToU32Array_spec (s : String) (ds : List Char)
    (hpre : s.toList = '0' :: 'x' :: ds ∨ s.toList = ds)
    (hdig : ∀ c ∈ ds, (hexDigitVal c).isSome = true)
    (hlen : ds.length ≤ 64) :
    (hexToU32Array s).length = 8 ∧
    (∀ o ∈ hexToU32Array s, ∃ v, o = some v ∧ v < 2 ^ 32) ∧
    ((hexToU32Array s).foldl (fun a o => a * 2 ^ 32 + o.getD 0) 0
      = hexVal (List.replicate (64 - ds.length) '0' ++ ds)) ∧
    (∀ cm : String, parseCommitmentForContract cm = hexToU32Array cm) := by
  have hclean : (if s.toList.take 2 = ['0', 'x'] then s.toList.drop 2 else s.toList) = ds := by
    rcases hpre with h | h
    · rw [h]
      simp
    · rw [h]
      rcases ds with _ | ⟨c1, ds1⟩
      · simp
      · rcases ds1 with _ | ⟨c2, ds2⟩
        · simp
        · split
          · next heq =>
              exfalso
              have heq2 : [c1, c2] = ['0', 'x'] := heq
              have hc2 : c2 = 'x' := by
                injection heq2 with h1 h2
                injection h2 with h3 h4
              have hx := hdig c2 (by simp)
              rw [hc2] at hx
              exact absurd hx (by decide)
          · rfl
  have harr : hexToU32Array s = (List.range 8).map
      (fun k => parseIntHex (((List.replicate (64 - ds.length) '0' ++ ds).drop (8 * k)).take 8)) := by
    simp only [hexToU32Array, hclean]
  have hplen : (List.replicate (64 - ds.length) '0' ++ ds).length = 64 := by
    rw [List.length_append, List.length_replicate]
    omega
  have hphex : ∀ c ∈ List.replicate (64 - ds.length) '0' ++ ds,
      (hexDigitVal c).isSome = true := by
    intro c hc
    rcases List.mem_append.mp hc with hc | hc
    · rw [List.eq_of_mem_replicate hc]
      decide
    · exact hdig c hc
  have hchunk : ∀ k, k < 8 →
      parseIntHex (((List.replicate (64 - ds.length) '0' ++ ds).drop (8 * k)).take 8)
          = some (hexVal (((List.replicate (64 - ds.length) '0' ++ ds).drop (8 * k)).take 8))
        ∧ hexVal (((List.replicate (64 - ds.length) '0' ++ ds).drop (8 * k)).take 8) < 2 ^ 32 := by
    intro k hk
    have hlenc : (((List.replicate (64 - ds.length) '0' ++ ds).drop (8 * k)).take 8).length
        = 8 := by
      rw [List.length_take, List.length_drop, hplen]
      have : 8 * k ≤ 56 := by omega
      omega
    have hhexc : ∀ c ∈ ((List.replicate (64 - ds.length) '0' ++ ds).drop (8 * k)).take 8,
        (hexDigitVal c).isSome = true := by
      intro c hc
      exact hphex c (List.drop_subset _ _ (List.take_subset _ _ hc))
    refine ⟨parseIntHex_all_hex (List.ne_nil_of_length_pos (by omega)) hhexc, ?_⟩
    have hb := hexVal_lt (((List.replicate (64 - ds.length) '0' ++ ds).drop (8 * k)).take 8)
    rw [hlenc] at hb
    calc hexVal _ < 16 ^ 8 := hb
    _ = 2 ^ 32 := by norm_num
  refine ⟨by rw [harr]; simp, ?_, ?_, fun cm => rfl⟩
  · rw [harr]
    intro o ho
    simp only [List.mem_map, List.mem_range] at ho
    obtain ⟨k, hk, rfl⟩ := ho
    obtain ⟨hps, hlt⟩ := hchunk k hk
    exact ⟨_, hps, hlt⟩
  · rw [harr]
    have hmapeq : (List.range 8).map
          (fun k => parseIntHex (((List.replicate (64 - ds.length) '0' ++ ds).drop (8 * k)).take 8))
        = (List.range 8).map
          (fun k => some (hexVal (((List.replicate (64 - ds.length) '0' ++ ds).drop (8 * k)).take 8))) := by
      apply List.map_congr_left
      intro k hk
      exact (hchunk k (List.mem_range.mp hk)).1
    rw [hmapeq]
    rw [show (fun k => some (hexVal (((List.replicate (64 - ds.length) '0' ++ ds).drop (8 * k)).take 8)))
        = some ∘ (fun k => hexVal (((List.replicate (64 - ds.length) '0' ++ ds).drop (8 * k)).take 8))
      from rfl]
    rw [← List.map_map, List.foldl_map]
    simp only [Option.getD_some]
    have := chunksFold 8 (List.replicate (64 - ds.length) '0' ++ ds) 0 (by rw [hplen])
    simpa using this

/-- Witness for C8 at the hex string 0x1234abcd. -/
theorem hexToU32Array_spec_witness :
    (hexToU32Array "0x1234abcd").length = 8 ∧
    (∀ o ∈ hexToU32Array "0x1234abcd", ∃ v, o = some v ∧ v < 2 ^ 32) ∧
    ((hexToU32Array "0x1234abcd").foldl (fun a o => a * 2 ^ 32 + o.getD 0) 0
      = hexVal (List.replicate (64 - ("1234abcd".toList).length) '0' ++ "1234abcd".toList)) ∧
    (∀ cm : String, parseCommitmentForContract cm = hexToU32Array cm) :=
  hexToU32Array_spec "0x1234abcd" "1234abcd".toList (Or.inl (by decide)) (by decide)
    (by decide)

/-- Map.set with a present key keeps the key sequence unchanged. -/
theorem mapSet_map_fst_of_has {m : List (String × PrescriptionView)} {k : String}
    (h : mapHas m k = true) (v : PrescriptionView) :
    (mapSet m k v).map Prod.fst = m.map Prod.fst := by
  unfold mapSet
  unfold mapHas at h
  rw [if_pos h]
  rw [List.map_map]
  apply List.map_congr_left
  intro e _
  simp only [Function.comp_apply]
  split
  · next heq => exact (eq_of_beq heq).symm
  · rfl

/-- Map.set with an absent key appends the binding. -/
theorem mapSet_of_not_has {m : List (String × PrescriptionView)} {k : String}
    (h : mapHas m k = false) (v : PrescriptionView) :
    mapSet m k v = m ++ [(k, v)] := by
  unfold mapSet
  unfold mapHas at h
  rw [h]
  rfl

/-- After Map.set the key is present. -/
theorem mapHas_mapSet_self (m : List (String × PrescriptionView)) (k : String)
    (v : PrescriptionView) : mapHas (mapSet m k v) k = true := by
  unfold mapHas mapSet
  split
  · next h =>
      obtain ⟨e, he, hek⟩ := List.any_eq_true.mp h
      exact List.any_eq_true.mpr
        ⟨(k, v), List.mem_map.mpr ⟨e, he, by simp [hek]⟩, by simp⟩
  · exact List.any_eq_true.mpr ⟨(k, v), by simp, by simp⟩

/-- Map.set keeps every present key present. -/
theorem mapHas_mono_mapSet {m : List (String × PrescriptionView)} {k2 : String}
    (k : String) (v : PrescriptionView) (h : mapHas m k2 = true) :
    mapHas (mapSet m k v) k2 = true := by
  unfold mapHas at h ⊢
  unfold mapSet
  obtain ⟨e, he, hek⟩ := List.any_eq_true.mp h
  split
  · by_cases hke : (e.1 == k) = true
    · refine List.any_eq_true.mpr
        ⟨(k, v), List.mem_map.mpr ⟨e, he, by simp [hke]⟩, ?_⟩
      have h1 := eq_of_beq hke
      have h2 := eq_of_beq hek
      simp [← h1, h2]
    · refine List.any_eq_true.mpr
        ⟨e, List.mem_map.mpr ⟨e, he, ?_⟩, hek⟩
      simp only [Bool.not_eq_true] at hke
      simp [hke]
  · exact List.any_eq_true.mpr ⟨e, by simp [he], hek⟩

/-- Every member of Map.set is an old member or the new binding. -/
theorem mem_mapSet {e : String × PrescriptionView}
    {m : List (String × PrescriptionView)} {k : String} {v : PrescriptionView}
    (h : e ∈ mapSet m k v) : e ∈ m ∨ e = (k, v) := by
  unfold mapSet at h
  split at h
  · obtain ⟨e0, he0, heq⟩ := List.mem_map.mp h
    by_cases hk : (e0.1 == k) = true
    · right
      rw [← heq]
      simp [hk]
    · left
      rw [← heq]
      simp only [Bool.not_eq_true] at hk
      simpa [hk] using he0
  · rcases List.mem_append.mp h with h | h
    · exact Or.inl h
    · simp only [List.mem_singleton] at h
      exact Or.inr h

/-- Map.set preserves distinctness of the key sequence. -/
theorem nodup_keys_mapSet {m : List (String × PrescriptionView)} {k : String}
    {v : PrescriptionView} (h : (m.map Prod.fst).Nodup) :
    ((mapSet m k v).map Prod.fst).Nodup := by
  by_cases hk : mapHas m k = true
  · rw [mapSet_map_fst_of_has hk]
    exact h
  · have hk2 : mapHas m k = false := by
      revert hk
      cases mapHas m k <;> simp
    rw [mapSet_of_not_has hk2]
    rw [List.map_append]
    rw [List.nodup_append]
    refine ⟨h, by simp, ?_⟩
    intro x hx hx2
    simp only [List.map_cons, List.map_nil, List.mem_singleton] at hx2
    subst hx2
    unfold mapHas at hk2
    obtain ⟨e, he, hek⟩ := List.mem_map.mp hx
    have hany : (m.any fun e2 => e2.1 == x) = true :=
      List.any_eq_true.mpr ⟨e, he, by simp [hek]⟩
    rw [hk2] at hany
    cases hany

/-- The database phase of the merge keeps the key sequence distinct. -/
theorem foldl_mapSet_nodup (l : List PrescriptionView) :
    ∀ m : List (String × PrescriptionView), (m.map Prod.fst).Nodup →
      ((l.foldl (fun m p => mapSet m p.id p) m).map Prod.fst).Nodup := by
  induction l with
  | nil => intro m h; exact h
  | cons p t ih => intro m h; exact ih _ (nodup_keys_mapSet h)

/-- Every entry after the database phase is an initial entry or carries a
database record under its own id. -/
theorem mem_foldl_mapSet {e : String × PrescriptionView} (l : List PrescriptionView) :
    ∀ m, e ∈ l.foldl (fun m p => mapSet m p.id p) m →
      e ∈ m ∨ (e.2 ∈ l ∧ e.1 = e.2.id) := by
  induction l with
  | nil => intro m h; exact Or.inl h
  | cons p t ih =>
    intro m h
    rcases ih _ h with h1 | h1
    · rcases mem_mapSet h1 with h2 | h2
      · exact Or.inl h2
      · subst h2
        exact Or.inr ⟨List.mem_cons_self _ _, rfl⟩
    · exact Or.inr ⟨List.mem_cons_of_mem _ h1.1, h1.2⟩

/-- Keys stay present through the database phase. -/
theorem mapHas_foldl_mapSet_mono (l : List PrescriptionView) :
    ∀ m k, mapHas m k = true →
      mapHas (l.foldl (fun m p => mapSet m p.id p) m) k = true := by
  induction l with
  | nil => intro m k h; exact h
  | cons p t ih => intro m k h; exact ih _ _ (mapHas_mono_mapSet _ _ h)

/-- After the database phase the id of every database record is present. -/
theorem mapHas_foldl_mapSet_of_mem (l : List PrescriptionView) :
    ∀ m p, p ∈ l → mapHas (l.foldl (fun m q => mapSet m q.id q) m) p.id = true := by
  induction l with
  | nil => intro m p hp; cases hp
  | cons q t ih =>
    intro m p hp
    rcases List.mem_cons.mp hp with h | h
    · subst h
      exact mapHas_foldl_mapSet_mono t _ _ (mapHas_mapSet_self m p.id p)
    · exact ih _ p h

/-- The blockchain phase keeps the key sequence distinct. -/
theorem nodup_keys_chainFold (l : List PrescriptionView) :
    ∀ m : List (String × PrescriptionView), (m.map Prod.fst).Nodup →
      ((l.foldl (fun m p => if mapHas m p.id then m else mapSet m p.id p) m).map
        Prod.fst).Nodup := by
  induction l with
  | nil => intro m h; exact h
  | cons p t ih =>
    intro m h
    apply ih
    by_cases hc : mapHas m p.id = true
    · simpa [hc] using h
    · have hc2 : mapHas m p.id = false := by
        revert hc
        cases mapHas m p.id <;> simp
      simpa [hc2] using nodup_keys_mapSet h

/-- Keys stay present through the blockchain phase. -/
theorem mapHas_chainFold_mono (l : List PrescriptionView) :
    ∀ m k, mapHas m k = true →
      mapHas (l.foldl (fun m p => if mapHas m p.id then m else mapSet m p.id p) m) k
        = true := by
  induction l with
  | nil => intro m k h; exact h
  | cons p t ih =>
    intro m k h
    apply ih
    by_cases hc : mapHas m p.id = true
    · simpa [hc] using h
    · have hc2 : mapHas m p.id = false := by
        revert hc
        cases mapHas m p.id <;> simp
      simpa [hc2] using mapHas_mono_mapSet p.id p h

/-- Every entry after the blockchain phase is an initial entry or a
blockchain record under its own id whose key was initially absent. -/
theorem mem_chainFold {e : String × PrescriptionView} (l : List PrescriptionView) :
    ∀ m, e ∈ l.foldl (fun m p => if mapHas m p.id then m else mapSet m p.id p) m →
      e ∈ m ∨ (e.2 ∈ l ∧ e.1 = e.2.id ∧ mapHas m e.1 = false) := by
  induction l with
  | nil => intro m h; exact Or.inl h
  | cons p t ih =>
    intro m h
    rcases ih _ h with h1 | h1
    · have h1b : e ∈ (if mapHas m p.id = true then m else mapSet m p.id p) := h1
      by_cases hc : mapHas m p.id = true
      · rw [if_pos hc] at h1b
        exact Or.inl h1b
      · have hc2 : mapHas m p.id = false := by
          revert hc
          cases mapHas m p.id <;> simp
        rw [if_neg hc] at h1b
        rcases mem_mapSet h1b with h2 | h2
        · exact Or.inl h2
        · subst h2
          exact Or.inr ⟨List.mem_cons_self _ _, rfl, hc2⟩
    · refine Or.inr ⟨List.mem_cons_of_mem _ h1.1, h1.2.1, ?_⟩
      have h3 : mapHas (if mapHas m p.id = true then m else mapSet m p.id p) e.1 = false :=
        h1.2.2
      by_cases hc : mapHas m p.id = true
      · rw [if_pos hc] at h3
        exact h3
      · rw [if_neg hc] at h3
        by_contra hfalse
        have htrue : mapHas m e.1 = true := by
          revert hfalse
          cases mapHas m e.1 <;> simp
        rw [mapHas_mono_mapSet _ _ htrue] at h3
        cases h3

/-- The combined Map has a distinct key sequence. -/
theorem combinedMap_keys_nodup (dbPs chainPs : List PrescriptionView) :
    ((combinedMap dbPs chainPs).map Prod.fst).Nodup := by
  unfold combinedMap
  exact nodup_keys_chainFold _ _ (foldl_mapSet_nodup _ _ (by simp))

/-- Every entry of the combined Map is keyed by the id of its record, and
its record is a database record, or a blockchain record whose id no
database record carries. -/
theorem mem_combinedMap {e : String × PrescriptionView}
    (dbPs chainPs : List PrescriptionView) (h : e ∈ combinedMap dbPs chainPs) :
    e.1 = e.2.id ∧ (e.2 ∈ dbPs ∨ (e.2 ∈ chainPs ∧ ∀ p ∈ dbPs, p.id ≠ e.2.id)) := by
  unfold combinedMap at h
  rcases mem_chainFold _ _ h with h1 | h1
  · rcases mem_foldl_mapSet _ _ h1 with h2 | h2
    · cases h2
    · exact ⟨h2.2, Or.inl h2.1⟩
  · refine ⟨h1.2.1, Or.inr ⟨h1.1, ?_⟩⟩
    intro p hp hpe
    have hhas := mapHas_foldl_mapSet_of_mem dbPs [] p hp
    have hfalse := h1.2.2
    rw [h1.2.1, ← hpe] at hfalse
    rw [hhas] at hfalse
    cases hfalse

/-- Every database record keeps an entry under its id in the combined
Map. -/
theorem combinedMap_db_represented (dbPs chainPs : List PrescriptionView)
    (p : PrescriptionView) (hp : p ∈ dbPs) :
    ∃ e ∈ combinedMap dbPs chainPs, e.1 = p.id := by
  unfold combinedMap
  have hhas := mapHas_chainFold_mono chainPs _ p.id
    (mapHas_foldl_mapSet_of_mem dbPs [] p hp)
  obtain ⟨e, he, hek⟩ := List.any_eq_true.mp hhas
  exact ⟨e, he, eq_of_beq hek⟩

/-- Claim C9: the list returned by GET /api/prescriptions contains at most
one entry per prescription id; database records take precedence over
blockchain records with the same id (every returned record is a database
record or a blockchain record whose id no database record carries, and
every database record keeps an entry under its id); and the final list is
sorted by issueDate in non-increasing, most recent first, order. -/
theorem mergeAndSortPrescriptions_spec (dbPs chainPs : List PrescriptionView) :
    ((mergeAndSortPrescriptions dbPs chainPs).map PrescriptionView.id).Nodup ∧
    (∀ r ∈ mergeAndSortPrescriptions dbPs chainPs,
      r ∈ dbPs ∨ (r ∈ chainPs ∧ ∀ p ∈ dbPs, p.id ≠ r.id)) ∧
    (∀ p ∈ dbPs, ∃ r ∈ mergeAndSortPrescriptions dbPs chainPs,
      r.id = p.id ∧ r ∈ dbPs) ∧
    (mergeAndSortPrescriptions dbPs chainPs).Sorted byIssueDateDesc := by
  have hperm : (mergeAndSortPrescriptions dbPs chainPs).Perm
      ((combinedMap dbPs chainPs).map (fun e => e.2)) :=
    List.perm_insertionSort _ _
  refine ⟨?_, ?_, ?_, List.sorted_insertionSort _ _⟩
  · have hkeys := combinedMap_keys_nodup dbPs chainPs
    have hmapid : ((combinedMap dbPs chainPs).map (fun e => e.2)).map PrescriptionView.id
        = (combinedMap dbPs chainPs).map Prod.fst := by
      rw [List.map_map]
      apply List.map_congr_left
      intro e he
      exact ((mem_combinedMap dbPs chainPs he).1).symm
    have hp2 : ((mergeAndSortPrescriptions dbPs chainPs).map PrescriptionView.id).Perm
        ((combinedMap dbPs chainPs).map Prod.fst) := by
      rw [← hmapid]
      exact hperm.map _
    exact (List.Perm.nodup_iff hp2).mpr hkeys
  · intro r hr
    have hr2 : r ∈ (combinedMap dbPs chainPs).map (fun e => e.2) := hperm.mem_iff.mp hr
    obtain ⟨e, he, rfl⟩ := List.mem_map.mp hr2
    exact (mem_combinedMap dbPs chainPs he).2
  · intro p hp
    obtain ⟨e, he, hek⟩ := combinedMap_db_represented dbPs chainPs p hp
    have hmem : e.2 ∈ (combinedMap dbPs chainPs).map (fun e => e.2) :=
      List.mem_map_of_mem _ he
    have he2 := mem_combinedMap dbPs chainPs he
    rcases he2.2 with h | h
    · refine ⟨e.2, hperm.mem_iff.mpr hmem, ?_, h⟩
      rw [← he2.1, hek]
    · exfalso
      refine h.2 p hp ?_
      rw [← hek]
      exact he2.1

/-- Witness for C9 at one database record and two blockchain records, one
sharing the database id. -/
theorem mergeAndSortPrescriptions_spec_witness :
    ((mergeAndSortPrescriptions [exView1] [exView2, exView3]).map
      PrescriptionView.id).Nodup ∧
    (exView1 ∈ ([exView1] : List PrescriptionView) ∨
      (exView1 ∈ [exView2, exView3] ∧ ∀ p ∈ [exView1], p.id ≠ exView1.id)) ∧
    (mergeAndSortPrescriptions [exView1] [exView2, exView3]).Sorted byIssueDateDesc :=
  ⟨(mergeAndSortPrescriptions_spec [exView1] [exView2, exView3]).1,
   (mergeAndSortPrescriptions_spec [exView1] [exView2, exView3]).2.1 exView1 (by decide),
   (mergeAndSortPrescriptions_spec [exView1] [exView2, exView3]).2.2.2⟩

end Veil
